import Mathlib

/-!
Verification of the sapio `ctv_emulators` oracle subsystem
(`src/ctv_emulators/src/lib.rs`), shallowly embedded in Lean.

Bytes are modelled as `Nat` values below 256, 32-byte hashes as
`List Nat` of length 32, u32 machine words as `Nat` with explicit
`% 2 ^ 32` where overflow can occur.  External cryptographic
primitives (the CTV commitment hash, BIP32 derivation, BIP143 sighash
computation, ECDSA and SHA-256) are opaque to this crate and are
modelled as fields of an explicit `Crypto` context.
-/

set_option maxRecDepth 4000

namespace SapioCtv

/-- Maximum wire-message size, `const MAX_MSG: usize = 1_000_000`. -/
def MAX_MSG : Nat := 1000000

/-- Big-endian 32-bit word assembled from four bytes
(`u32::from_be_bytes`). -/
def u32be (b0 b1 b2 b3 : Nat) : Nat :=
  2 ^ 24 * b0 + 2 ^ 16 * b1 + 2 ^ 8 * b2 + b3

/-- The `i`-th big-endian word of the 32-byte hash: the Rust code
transmutes `[u8; 32]` into `[[u8; 4]; 8]` (consecutive 4-byte chunks in
memory order) and applies `u32::from_be_bytes` to each chunk. -/
def wordOf (h : List Nat) (i : Nat) : Nat :=
  u32be (h.getD (4 * i) 0) (h.getD (4 * i + 1) 0)
        (h.getD (4 * i + 2) 0) (h.getD (4 * i + 3) 0)

/-- `(x << 1) >> 1` on `u32`: the left shift wraps modulo `2 ^ 32`,
clearing the most significant bit. -/
def mask31 (x : Nat) : Nat := x * 2 % 2 ^ 32 / 2

/-- `(x >> 31) << i` on `u32` (the wrap of the left shift is kept
explicit even though the shifted value is at most 1). -/
def msbBit (x : Nat) (i : Nat) : Nat := x / 2 ^ 31 * 2 ^ i % 2 ^ 32

/-- `hash_to_child_vec`: the 8 words with their top bit masked off,
followed by a 9th index packing the 8 masked-off top bits
(bit `i` of the 9th index is word `i`'s most significant bit).
All `ChildNumber`s produced are below `2 ^ 31`, hence normal
(non-hardened) indices; we model them by their raw `u32` value. -/
def hash_to_child_vec (h : List Nat) : List Nat :=
  ((List.range 8).map fun i => mask31 (wordOf h i)) ++
    [((List.range 8).map fun i => msbBit (wordOf h i) i).sum % 2 ^ 32]

theorem hash_to_child_vec_explicit (h : List Nat) :
    hash_to_child_vec h =
      [mask31 (wordOf h 0), mask31 (wordOf h 1), mask31 (wordOf h 2),
       mask31 (wordOf h 3), mask31 (wordOf h 4), mask31 (wordOf h 5),
       mask31 (wordOf h 6), mask31 (wordOf h 7),
       (msbBit (wordOf h 0) 0 + (msbBit (wordOf h 1) 1 +
         (msbBit (wordOf h 2) 2 + (msbBit (wordOf h 3) 3 +
           (msbBit (wordOf h 4) 4 + (msbBit (wordOf h 5) 5 +
             (msbBit (wordOf h 6) 6 + (msbBit (wordOf h 7) 7 + 0)))))))) %
         2 ^ 32] := by
  rfl

theorem msbBit_small (x : Nat) (i : Nat) (hx : x < 2 ^ 32) (hi : i ≤ 7) :
    msbBit x i = x / 2 ^ 31 * 2 ^ i := by
  unfold msbBit
  have h1 : x / 2 ^ 31 ≤ 1 := by omega
  have h2 : 2 ^ i ≤ 2 ^ 7 := Nat.pow_le_pow_right (by omega) hi
  have h3 : x / 2 ^ 31 * 2 ^ i ≤ 1 * 2 ^ 7 := Nat.mul_le_mul h1 h2
  exact Nat.mod_eq_of_lt (by omega)

theorem msb_sum_inj
    {x0 x1 x2 x3 x4 x5 x6 x7 y0 y1 y2 y3 y4 y5 y6 y7 : Nat}
    (hx0 : x0 < 2 ^ 32) (hx1 : x1 < 2 ^ 32) (hx2 : x2 < 2 ^ 32) (hx3 : x3 < 2 ^ 32)
    (hx4 : x4 < 2 ^ 32) (hx5 : x5 < 2 ^ 32) (hx6 : x6 < 2 ^ 32) (hx7 : x7 < 2 ^ 32)
    (hy0 : y0 < 2 ^ 32) (hy1 : y1 < 2 ^ 32) (hy2 : y2 < 2 ^ 32) (hy3 : y3 < 2 ^ 32)
    (hy4 : y4 < 2 ^ 32) (hy5 : y5 < 2 ^ 32) (hy6 : y6 < 2 ^ 32) (hy7 : y7 < 2 ^ 32)
    (hs : (msbBit x0 0 + (msbBit x1 1 + (msbBit x2 2 + (msbBit x3 3 +
            (msbBit x4 4 + (msbBit x5 5 + (msbBit x6 6 + (msbBit x7 7 + 0)))))))) % 2 ^ 32 =
          (msbBit y0 0 + (msbBit y1 1 + (msbBit y2 2 + (msbBit y3 3 +
            (msbBit y4 4 + (msbBit y5 5 + (msbBit y6 6 + (msbBit y7 7 + 0)))))))) % 2 ^ 32) :
    x0 / 2 ^ 31 = y0 / 2 ^ 31 ∧ x1 / 2 ^ 31 = y1 / 2 ^ 31 ∧ x2 / 2 ^ 31 = y2 / 2 ^ 31 ∧
    x3 / 2 ^ 31 = y3 / 2 ^ 31 ∧ x4 / 2 ^ 31 = y4 / 2 ^ 31 ∧ x5 / 2 ^ 31 = y5 / 2 ^ 31 ∧
    x6 / 2 ^ 31 = y6 / 2 ^ 31 ∧ x7 / 2 ^ 31 = y7 / 2 ^ 31 := by
  rw [msbBit_small x0 0 hx0 (by omega), msbBit_small x1 1 hx1 (by omega),
      msbBit_small x2 2 hx2 (by omega), msbBit_small x3 3 hx3 (by omega),
      msbBit_small x4 4 hx4 (by omega), msbBit_small x5 5 hx5 (by omega),
      msbBit_small x6 6 hx6 (by omega), msbBit_small x7 7 hx7 (by omega),
      msbBit_small y0 0 hy0 (by omega), msbBit_small y1 1 hy1 (by omega),
      msbBit_small y2 2 hy2 (by omega), msbBit_small y3 3 hy3 (by omega),
      msbBit_small y4 4 hy4 (by omega), msbBit_small y5 5 hy5 (by omega),
      msbBit_small y6 6 hy6 (by omega), msbBit_small y7 7 hy7 (by omega)] at hs
  omega

theorem word_inj {x y : Nat} (hx : x < 2 ^ 32) (hy : y < 2 ^ 32)
    (hm : mask31 x = mask31 y) (hb : x / 2 ^ 31 = y / 2 ^ 31) : x = y := by
  unfold mask31 at hm
  omega

theorem bytes_of_word_eq {a b c d e f g i : Nat}
    (ha2 : a < 256) (hb2 : b < 256) (hc2 : c < 256) (hd2 : d < 256)
    (he2 : e < 256) (hf2 : f < 256) (hg2 : g < 256) (hi2 : i < 256)
    (h : u32be a b c d = u32be e f g i) : a = e ∧ b = f ∧ c = g ∧ d = i := by
  unfold u32be at h
  omega

theorem getD_lt_256 (h : List Nat) (hb : ∀ x ∈ h, x < 256) (j : Nat) :
    h.getD j 0 < 256 := by
  induction h generalizing j with
  | nil => simpa [List.getD] using Nat.lt_of_lt_of_le Nat.zero_lt_one (by omega)
  | cons a t ih =>
    cases j with
    | zero => simpa using hb a (by simp)
    | succ j => simpa using ih (fun x hx => hb x (by simp [hx])) j

theorem wordOf_lt (h : List Nat) (hb : ∀ x ∈ h, x < 256) (i : Nat) :
    wordOf h i < 2 ^ 32 := by
  unfold wordOf u32be
  have h0 := getD_lt_256 h hb (4 * i)
  have h1 := getD_lt_256 h hb (4 * i + 1)
  have h2 := getD_lt_256 h hb (4 * i + 2)
  have h3 := getD_lt_256 h hb (4 * i + 3)
  omega

/-- C7: `encode` of the all-zero hash is nine zero indices; `encode` of
32 bytes of `0xFF` is eight indices of `0x7FFFFFFF` and a 9th index of
`0xFF`. -/
theorem c7_hash_to_child_vec_vectors :
    hash_to_child_vec (List.replicate 32 0) = List.replicate 9 0 ∧
    hash_to_child_vec (List.replicate 32 255) =
      [2147483647, 2147483647, 2147483647, 2147483647, 2147483647,
       2147483647, 2147483647, 2147483647, 255] := by
  constructor <;> rfl

/-- C2: `hash_to_child_vec` is injective on 32-byte hashes: distinct
hashes yield distinct derivation paths — the 8 masked 31-bit words plus
the 8 recovered most significant bits lose no entropy. -/
theorem c2_hash_to_child_vec_injective (h1 h2 : List Nat)
    (hl1 : h1.length = 32) (hl2 : h2.length = 32)
    (hb1 : ∀ x ∈ h1, x < 256) (hb2 : ∀ x ∈ h2, x < 256)
    (hne : h1 ≠ h2) : hash_to_child_vec h1 ≠ hash_to_child_vec h2 := by
  intro henc
  apply hne
  rw [hash_to_child_vec_explicit, hash_to_child_vec_explicit] at henc
  simp only [List.cons.injEq, and_true] at henc
  obtain ⟨e0, e1, e2, e3, e4, e5, e6, e7, e8⟩ := henc
  have w1 : ∀ i, wordOf h1 i < 2 ^ 32 := wordOf_lt h1 hb1
  have w2 : ∀ i, wordOf h2 i < 2 ^ 32 := wordOf_lt h2 hb2
  obtain ⟨m0, m1, m2, m3, m4, m5, m6, m7⟩ :=
    msb_sum_inj (w1 0) (w1 1) (w1 2) (w1 3) (w1 4) (w1 5) (w1 6) (w1 7)
      (w2 0) (w2 1) (w2 2) (w2 3) (w2 4) (w2 5) (w2 6) (w2 7) e8
  have q0 : wordOf h1 0 = wordOf h2 0 := word_inj (w1 0) (w2 0) e0 m0
  have q1 : wordOf h1 1 = wordOf h2 1 := word_inj (w1 1) (w2 1) e1 m1
  have q2 : wordOf h1 2 = wordOf h2 2 := word_inj (w1 2) (w2 2) e2 m2
  have q3 : wordOf h1 3 = wordOf h2 3 := word_inj (w1 3) (w2 3) e3 m3
  have q4 : wordOf h1 4 = wordOf h2 4 := word_inj (w1 4) (w2 4) e4 m4
  have q5 : wordOf h1 5 = wordOf h2 5 := word_inj (w1 5) (w2 5) e5 m5
  have q6 : wordOf h1 6 = wordOf h2 6 := word_inj (w1 6) (w2 6) e6 m6
  have q7 : wordOf h1 7 = wordOf h2 7 := word_inj (w1 7) (w2 7) e7 m7
  have g1 : ∀ j, h1.getD j 0 < 256 := getD_lt_256 h1 hb1
  have g2 : ∀ j, h2.getD j 0 < 256 := getD_lt_256 h2 hb2
  unfold wordOf at q0 q1 q2 q3 q4 q5 q6 q7
  simp only [Nat.reduceMul, Nat.reduceAdd] at q0 q1 q2 q3 q4 q5 q6 q7
  obtain ⟨B0, B1, B2, B3⟩ := bytes_of_word_eq
    (g1 0) (g1 1) (g1 2) (g1 3) (g2 0) (g2 1) (g2 2) (g2 3) q0
  obtain ⟨B4, B5, B6, B7⟩ := bytes_of_word_eq
    (g1 4) (g1 5) (g1 6) (g1 7) (g2 4) (g2 5) (g2 6) (g2 7) q1
  obtain ⟨B8, B9, B10, B11⟩ := bytes_of_word_eq
    (g1 8) (g1 9) (g1 10) (g1 11) (g2 8) (g2 9) (g2 10) (g2 11) q2
  obtain ⟨B12, B13, B14, B15⟩ := bytes_of_word_eq
    (g1 12) (g1 13) (g1 14) (g1 15) (g2 12) (g2 13) (g2 14) (g2 15) q3
  obtain ⟨B16, B17, B18, B19⟩ := bytes_of_word_eq
    (g1 16) (g1 17) (g1 18) (g1 19) (g2 16) (g2 17) (g2 18) (g2 19) q4
  obtain ⟨B20, B21, B22, B23⟩ := bytes_of_word_eq
    (g1 20) (g1 21) (g1 22) (g1 23) (g2 20) (g2 21) (g2 22) (g2 23) q5
  obtain ⟨B24, B25, B26, B27⟩ := bytes_of_word_eq
    (g1 24) (g1 25) (g1 26) (g1 27) (g2 24) (g2 25) (g2 26) (g2 27) q6
  obtain ⟨B28, B29, B30, B31⟩ := bytes_of_word_eq
    (g1 28) (g1 29) (g1 30) (g1 31) (g2 28) (g2 29) (g2 30) (g2 31) q7
  apply List.ext_getElem (by rw [hl1, hl2])
  intro i hi1 hi2
  have hi : i < 32 := by rw [hl1] at hi1; omega
  rw [← List.getD_eq_getElem h1 0 hi1, ← List.getD_eq_getElem h2 0 hi2]
  interval_cases i <;> assumption

/-- C2 witness: the injectivity theorem applied to two concrete distinct
hashes, the all-zero hash and the all-0xFF hash. -/
theorem c2_hash_to_child_vec_injective_witness :
    hash_to_child_vec (List.replicate 32 0) ≠
      hash_to_child_vec (List.replicate 32 255) :=
  c2_hash_to_child_vec_injective (List.replicate 32 0) (List.replicate 32 255)
    (by decide) (by decide) (by decide) (by decide) (by decide)

/-! ## PSBT data model

`PartiallySignedTransaction` is modelled with exactly the structure the
oracle code reads: the embedded unsigned transaction (opaque, `Nat`),
and per-input `witness_script`, `witness_utxo` and `partial_sigs`.
Public keys are opaque `Nat`s, scripts and signatures byte lists. -/

structure TxOut where
  value : Nat
  deriving Repr, DecidableEq

structure PSBTInput where
  witness_script : Option (List Nat)
  witness_utxo : Option TxOut
  partial_sigs : List (Nat × List Nat)
  deriving Repr, DecidableEq

structure PSBT where
  tx : Nat
  inputs : List PSBTInput
  deriving Repr, DecidableEq

instance : Inhabited PSBTInput := ⟨⟨none, none, []⟩⟩

/-- `extract_tx` returns the embedded unsigned transaction. -/
def extract_tx (b : PSBT) : Nat := b.tx

/-- `BTreeMap::insert`: replace the value at an existing key, else
append the new entry. -/
def insertSig : List (Nat × List Nat) → Nat → List Nat → List (Nat × List Nat)
  | [], k, v => [(k, v)]
  | (k2, v2) :: rest, k, v =>
    if k2 = k then (k, v) :: rest else (k2, v2) :: insertSig rest k v

/-- Map lookup on the partial-signature entries. -/
def lookupSig : List (Nat × List Nat) → Nat → Option (List Nat)
  | [], _ => none
  | (k2, v2) :: rest, k => if k2 = k then some v2 else lookupSig rest k

theorem lookupSig_insertSig (m : List (Nat × List Nat)) (k : Nat) (v : List Nat) :
    lookupSig (insertSig m k v) k = some v := by
  induction m with
  | nil => simp [insertSig, lookupSig]
  | cons p rest ih =>
    obtain ⟨k2, v2⟩ := p
    by_cases h : k2 = k <;> simp [insertSig, lookupSig, h, ih]

/-! ## External cryptographic primitives

The commitment hash (`sapio_base::CTVHash::get_ctv_hash`), BIP32 key
derivation, the BIP143 sighash, ECDSA signing/verification and SHA-256
are external to this crate; they are opaque deterministic functions,
collected in an explicit context.  Keys are opaque `Nat`s; `ecdsa_sign`
returns the 64 compact signature bytes. -/

structure Crypto where
  get_ctv_hash : Nat → Nat → List Nat
  derive_priv : Nat → List Nat → Except Unit Nat
  public_key : Nat → Nat
  signature_hash : Nat → Nat → List Nat → Nat → List Nat
  ecdsa_sign : List Nat → Nat → List Nat
  sha256 : List Nat → List Nat
  verify : Nat → List Nat → List Nat → Bool

/-- The outcome of `HDOracleEmulator::sign`: success, an
`std::io::Error` with its message, or a Rust panic (out-of-bounds
indexing). -/
inductive SignResult where
  | ok (b : PSBT)
  | err (s : String)
  | panic
  deriving Repr, DecidableEq

/-- `HDOracleEmulator::derive`: derive the child private key along the
path encoded from the hash. -/
def oracle_derive (c : Crypto) (root : Nat) (h : List Nat) : Except Unit Nat :=
  c.derive_priv root (hash_to_child_vec h)

/-- `HDOracleEmulator::sign`, line for line: extract the transaction,
recompute its commitment hash at input index 0, derive the key; if that
succeeds, index input 0 (panicking when the input list is empty, as
Rust slice indexing does), require the witness script and witness UTXO,
build the BIP143 SIGHASH_ALL sighash, turn it into a signing message
(valid only when 32 bytes long), sign, append the 0x01 suffix byte and
insert the signature keyed by the derived public key.  Any missing
piece falls through to the io error. -/
def oracle_sign (c : Crypto) (root : Nat) (b : PSBT) : SignResult :=
  let tx := extract_tx b
  let h := c.get_ctv_hash tx 0
  match oracle_derive c root h with
  | Except.error _ => SignResult.err "Unknown Failure to Sign"
  | Except.ok key =>
    match b.inputs with
    | [] => SignResult.panic
    | i0 :: rest =>
      match i0.witness_script with
      | none => SignResult.err "Unknown Failure to Sign"
      | some scriptcode =>
        match i0.witness_utxo with
        | none => SignResult.err "Unknown Failure to Sign"
        | some utxo =>
          let sighash := c.signature_hash tx 0 scriptcode utxo.value
          if sighash.length = 32 then
            let signature := c.ecdsa_sign sighash key ++ [1]
            let pk := c.public_key key
            SignResult.ok
              { b with inputs :=
                  { i0 with partial_sigs := insertSig i0.partial_sigs pk signature } :: rest }
          else SignResult.err "Message hash not valid (impossible?)"

/-- The request updated by inserting one partial signature on input 0,
the shape `HDOracleEmulator::sign` returns on success. -/
def withSig (b : PSBT) (i0 : PSBTInput) (rest : List PSBTInput)
    (pk : Nat) (sig : List Nat) : PSBT :=
  { b with inputs := { i0 with partial_sigs := insertSig i0.partial_sigs pk sig } :: rest }

/-- C1: when input 0 carries a witness script and a witness UTXO, the
derivation for the recomputed commitment hash succeeds and the sighash
is a valid 32-byte message, `sign` returns the request updated so that
input 0's partial-signature map maps the public key of
`derive_priv(root, encode(h))` to the ECDSA signature over the BIP143
SIGHASH_ALL sighash of input 0 followed by the suffix byte 0x01. -/
theorem c1_oracle_sign_adds_signature (c : Crypto) (root : Nat) (b : PSBT)
    (i0 : PSBTInput) (rest : List PSBTInput) (sc : List Nat) (u : TxOut) (key : Nat)
    (hin : b.inputs = i0 :: rest)
    (hsc : i0.witness_script = some sc)
    (hu : i0.witness_utxo = some u)
    (hd : oracle_derive c root (c.get_ctv_hash (extract_tx b) 0) = Except.ok key)
    (hm : (c.signature_hash (extract_tx b) 0 sc u.value).length = 32) :
    oracle_sign c root b = SignResult.ok
      (withSig b i0 rest (c.public_key key)
        (c.ecdsa_sign (c.signature_hash (extract_tx b) 0 sc u.value) key ++ [1])) ∧
    lookupSig
      (insertSig i0.partial_sigs (c.public_key key)
        (c.ecdsa_sign (c.signature_hash (extract_tx b) 0 sc u.value) key ++ [1]))
      (c.public_key key) =
      some (c.ecdsa_sign (c.signature_hash (extract_tx b) 0 sc u.value) key ++ [1]) := by
  constructor
  · simp only [extract_tx] at hd hm
    simp [oracle_sign, withSig, extract_tx, hd, hin, hsc, hu, hm]
  · exact lookupSig_insertSig _ _ _

/-- A trivial concrete cryptographic context used by witnesses. -/
def cryptoW : Crypto where
  get_ctv_hash := fun _ _ => List.replicate 32 0
  derive_priv := fun root path => Except.ok (root + path.sum)
  public_key := fun k => k + 1000
  signature_hash := fun _ _ _ _ => List.replicate 32 7
  ecdsa_sign := fun m k => k :: m
  sha256 := fun m => 9 :: m
  verify := fun pk m s => s == (pk - 1000) :: m

/-- A concrete one-input request used by witnesses. -/
def psbtW : PSBT where
  tx := 42
  inputs := [⟨some [1, 2], some ⟨50000⟩, []⟩]

/-- C1 witness: the signing theorem applied at a concrete request and
concrete cryptographic context. -/
theorem c1_oracle_sign_adds_signature_witness :
    oracle_sign cryptoW 3 psbtW = SignResult.ok
      (withSig psbtW ⟨some [1, 2], some ⟨50000⟩, []⟩ [] (cryptoW.public_key 3)
        (cryptoW.ecdsa_sign (cryptoW.signature_hash (extract_tx psbtW) 0 [1, 2] 50000) 3 ++ [1])) ∧
    lookupSig
      (insertSig [] (cryptoW.public_key 3)
        (cryptoW.ecdsa_sign (cryptoW.signature_hash (extract_tx psbtW) 0 [1, 2] 50000) 3 ++ [1]))
      (cryptoW.public_key 3) =
      some (cryptoW.ecdsa_sign (cryptoW.signature_hash (extract_tx psbtW) 0 [1, 2] 50000) 3 ++ [1]) :=
  c1_oracle_sign_adds_signature cryptoW 3 psbtW ⟨some [1, 2], some ⟨50000⟩, []⟩ []
    [1, 2] ⟨50000⟩ 3 (by rfl) (by rfl) (by rfl) (by rfl) (by decide)

/-- C10: `sign` reaches `b.inputs[0]` with no emptiness check: whenever
key derivation for the recomputed hash succeeds, a request whose input
list is empty makes it panic (out-of-bounds index) instead of
returning its io error value. -/
theorem c10_oracle_sign_empty_inputs_panics (c : Crypto) (root : Nat) (b : PSBT)
    (key : Nat)
    (hin : b.inputs = [])
    (hd : oracle_derive c root (c.get_ctv_hash (extract_tx b) 0) = Except.ok key) :
    oracle_sign c root b = SignResult.panic := by
  simp only [extract_tx] at hd
  simp [oracle_sign, extract_tx, hd, hin]

/-- C10 witness: the panic theorem applied to a concrete request with
an empty input list. -/
theorem c10_oracle_sign_empty_inputs_panics_witness :
    oracle_sign cryptoW 3 ⟨42, []⟩ = SignResult.panic :=
  c10_oracle_sign_empty_inputs_panics cryptoW 3 ⟨42, []⟩ 3 (by rfl) (by rfl)

/-! ## ConfirmKey -/

/-- A cryptographic context whose signatures verify against the public
key of the signing private key. -/
def SoundCrypto (c : Crypto) : Prop :=
  ∀ m k, c.verify (c.public_key k) m (c.ecdsa_sign m k) = true

/-- `msgs::KeyConfirmed(signature, hash)`. -/
structure KeyConfirmed where
  signature : List Nat
  challenge : List Nat
  deriving Repr, DecidableEq

/-- The `ConfirmKey` branch of `HDOracleEmulator::handle`: the fresh 32
random bytes (`entropy`, made an explicit parameter) are wrapped into a
hash value by `Sha256::from_slice` — which reinterprets the bytes, it
does not hash them — then the message `sha256(challenge ++ nonce)` is
signed with the master private key. -/
def confirm_key (c : Crypto) (root : Nat) (entropy : List Nat)
    (nonce : List Nat) : KeyConfirmed :=
  let h := entropy
  let m := c.sha256 (h ++ nonce)
  { signature := c.ecdsa_sign m root, challenge := h }

/-- C6 counterexample: the returned challenge is not the SHA-256 image
of the fresh random bytes — `Sha256::from_slice` wraps the 32 random
bytes unchanged — refuting the claim at a concrete context whose
`sha256` moves every input. -/
theorem c6_confirm_key_counterexample :
    (confirm_key cryptoW 3 (List.replicate 32 0) []).challenge ≠
      cryptoW.sha256 (List.replicate 32 0) := by
  decide

/-- C6 as amended: the challenge returned is the 32 fresh random bytes
themselves (no hashing applied), and the signature verifies against the
oracle's master public key over `sha256(challenge ++ nonce)` for the
challenge returned alongside it, for every nonce. -/
theorem c6_confirm_key_verifies (c : Crypto) (root : Nat)
    (entropy nonce : List Nat) (hs : SoundCrypto c) :
    (confirm_key c root entropy nonce).challenge = entropy ∧
    c.verify (c.public_key root)
      (c.sha256 ((confirm_key c root entropy nonce).challenge ++ nonce))
      (confirm_key c root entropy nonce).signature = true := by
  exact ⟨rfl, hs (c.sha256 (entropy ++ nonce)) root⟩

/-- C6 witness: the amended theorem at a concrete sound context,
entropy and nonce. -/
theorem c6_confirm_key_verifies_witness :
    (confirm_key cryptoW 3 (List.replicate 32 0) [5]).challenge =
      List.replicate 32 0 ∧
    cryptoW.verify (cryptoW.public_key 3)
      (cryptoW.sha256 ((confirm_key cryptoW 3 (List.replicate 32 0) [5]).challenge ++ [5]))
      (confirm_key cryptoW 3 (List.replicate 32 0) [5]).signature = true :=
  c6_confirm_key_verifies cryptoW 3 (List.replicate 32 0) [5]
    (fun m k => by simp [cryptoW])

/-! ## The per-connection server loop -/

/-- `msgs::Request`. -/
inductive Request where
  | signPSBT (b : PSBT)
  | confirmKey (epk : Nat) (nonce : List Nat)
  deriving Repr, DecidableEq

/-- The two response payloads the server writes back. -/
inductive Response where
  | psbt (b : PSBT)
  | keyConfirmed (k : KeyConfirmed)
  deriving Repr, DecidableEq

/-- Outcome of one `HDOracleEmulator::handle` call. -/
inductive HandleResult where
  | ok (r : Response)
  | err (s : String)
  | panic
  deriving Repr, DecidableEq

/-- `HDOracleEmulator::handle` on an already-decoded request: a sign
failure propagates out through `?` — no response is written for it. -/
def handle (c : Crypto) (root : Nat) (entropy : List Nat)
    (req : Request) : HandleResult :=
  match req with
  | Request.signPSBT b =>
    match oracle_sign c root b with
    | SignResult.ok b2 => HandleResult.ok (Response.psbt b2)
    | SignResult.err e => HandleResult.err e
    | SignResult.panic => HandleResult.panic
  | Request.confirmKey _ nonce =>
    HandleResult.ok (Response.keyConfirmed (confirm_key c root entropy nonce))

/-- How the per-connection task ends: the incoming request list is
exhausted (connection still open), `handle` returned an error (the `?`
in the spawned task's loop ends the task and drops the socket), or a
panic. -/
inductive LoopEnd where
  | open_
  | errored (s : String)
  | panicked
  deriving Repr, DecidableEq

/-- The spawned task of `HDOracleEmulator::bind`:
`loop { socket.readable().await?; this.handle(&mut socket).await? }`,
run over the connection's decoded request stream with an explicit
entropy supply (one fresh block per request).  Returns the responses
written back and how the loop ended. -/
def serverLoop (c : Crypto) (root : Nat) :
    List (List Nat) → List Request → List Response × LoopEnd
  | _, [] => ([], LoopEnd.open_)
  | ents, r :: rest =>
    match handle c root (ents.headD (List.replicate 32 0)) r with
    | HandleResult.ok resp =>
      let out := serverLoop c root ents.tail rest
      (resp :: out.1, out.2)
    | HandleResult.err e => ([], LoopEnd.errored e)
    | HandleResult.panic => ([], LoopEnd.panicked)

/-- C5 counterexample: a request whose input 0 is missing its witness
script makes `sign` fail; the loop then terminates with the error, the
failure is never written back, and a following well-formed request is
never answered — the connection does not stay open. -/
theorem c5_serverLoop_counterexample :
    serverLoop cryptoW 3 [List.replicate 32 0, List.replicate 32 0]
      [Request.signPSBT ⟨42, [⟨none, none, []⟩]⟩, Request.confirmKey 0 []] =
      ([], LoopEnd.errored "Unknown Failure to Sign") := by
  rfl

/-- C5 as amended: when `sign` fails on a request, `handle` returns the
error without writing any response; the per-connection loop terminates
with that error (dropping the connection), so no subsequent request on
the connection is processed. -/
theorem c5_sign_failure_ends_loop (c : Crypto) (root : Nat)
    (ents : List (List Nat)) (b : PSBT) (rest : List Request) (e : String)
    (hf : oracle_sign c root b = SignResult.err e) :
    serverLoop c root ents (Request.signPSBT b :: rest) =
      ([], LoopEnd.errored e) := by
  cases ents <;> simp [serverLoop, handle, hf]

/-- C5 witness: the amended theorem at the concrete failing request. -/
theorem c5_sign_failure_ends_loop_witness :
    serverLoop cryptoW 3 [List.replicate 32 0]
      [Request.signPSBT ⟨42, [⟨none, none, []⟩]⟩, Request.confirmKey 0 []] =
      ([], LoopEnd.errored "Unknown Failure to Sign") :=
  c5_sign_failure_ends_loop cryptoW 3 [List.replicate 32 0]
    ⟨42, [⟨none, none, []⟩]⟩ [Request.confirmKey 0 []]
    "Unknown Failure to Sign" (by rfl)

/-! ## Wire framing: `HDOracleEmulator::requested` -/

/-- `HDOracleEmulator::requested`: read a 4-byte big-endian length,
read exactly that many payload bytes, hand them to the JSON decoder
(abstracted as `parse`).  The incoming stream is the byte sequence the
peer will deliver; too few bytes is a read error.  Note: no comparison
against `MAX_MSG` appears anywhere on this path. -/
def requested (parse : List Nat → Option Request) (stream : List Nat) :
    Except String Request :=
  match stream with
  | b0 :: b1 :: b2 :: b3 :: rest =>
    let l := u32be b0 b1 b2 b3
    if rest.length < l then Except.error "read_exact: early eof"
    else
      match parse (rest.take l) with
      | some r => Except.ok r
      | none => Except.error "serde_json error"
  | _ => Except.error "read_u32: early eof"

/-- C3: a frame whose length prefix declares 1,000,001 bytes — above
`MAX_MSG` — is not rejected: `requested` reads the whole payload and
hands it to the JSON decoder (the result is whatever `parse` yields),
because the code never compares the declared length against `MAX_MSG`
(the constant is declared and unused). -/
theorem c3_requested_ignores_max_msg (parse : List Nat → Option Request) :
    MAX_MSG < 1000001 ∧
    requested parse (0 :: 15 :: 66 :: 65 :: List.replicate 1000001 0) =
      match parse (List.replicate 1000001 0) with
      | some r => Except.ok r
      | none => Except.error "serde_json error" := by
  have hL : u32be 0 15 66 65 = 1000001 := by norm_num [u32be]
  constructor
  · norm_num [MAX_MSG]
  · simp only [requested, hL, List.length_replicate, Nat.lt_irrefl, if_false,
      List.take_replicate, Nat.min_self]

/-! ## Client side: `HDOracleEmulatorConnection::sign`

The transport is abstracted as an oracle of outcomes: `connect` yields
a fresh stream or a transport error, `send` covers
`Self::request` + `conn.flush()`, `recv` is `Self::response`.
Connection handles are opaque `Nat`s.  The mutex-guarded
`Option<TcpStream>` cell is threaded explicitly: `client_sign` maps the
cell's state before the call to the result together with the cell's
state when the call returns. -/

structure Transport where
  connect : Except String Nat
  send : Nat → PSBT → Except String Unit
  recv : Nat → Except String PSBT

/-- One iteration of the loop body with a live connection: send the
`SignPSBT` request, read the response; every `?` leaves the cell
exactly as it is — nothing ever writes `None` back. -/
def client_exchange (tr : Transport) (conn : Nat) (b : PSBT) :
    Except String PSBT × Option Nat :=
  match tr.send conn b with
  | Except.error e => (Except.error e, some conn)
  | Except.ok _ =>
    match tr.recv conn with
    | Except.error e => (Except.error e, some conn)
    | Except.ok inp => (Except.ok inp, some conn)

/-- `CTVEmulator::sign` for `HDOracleEmulatorConnection`: under the
lock, loop — with a connection present do one request/response
exchange and return; with none, connect (one attempt; its `?` surfaces
the failure) and loop again with the fresh connection.  On success the
returned transaction is merged into the caller's copy (`merge` is the
external `PartiallySignedTransaction::merge`); a merge failure is the
io error `Fault Signed PSBT`. -/
def client_sign (tr : Transport) (merge : PSBT → PSBT → Option PSBT)
    (st : Option Nat) (b : PSBT) : Except String PSBT × Option Nat :=
  let inner : Except String PSBT × Option Nat :=
    match st with
    | some conn => client_exchange tr conn b
    | none =>
      match tr.connect with
      | Except.error e => (Except.error e, none)
      | Except.ok conn => client_exchange tr conn b
  match inner with
  | (Except.error e, st2) => (Except.error e, st2)
  | (Except.ok inp, st2) =>
    match merge b inp with
    | none => (Except.error "Fault Signed PSBT", st2)
    | some m => (Except.ok m, st2)

/-- A transport whose established streams are broken: every send is
refused.  Used to exercise the transport-error path. -/
def transportBroken : Transport where
  connect := Except.error "connection refused"
  send := fun _ _ => Except.error "connection reset by peer"
  recv := fun _ => Except.error "connection reset by peer"

/-- C4 counterexample: a call that starts with an established
connection and ends in a transport error returns with the stored
handle still present — it is not reset to absent, so the next call
reuses the stale connection instead of dialing a fresh one. -/
theorem c4_client_sign_counterexample :
    (client_sign transportBroken (fun _ x => some x) (some 7) psbtW).1 =
      Except.error "connection reset by peer" ∧
    (client_sign transportBroken (fun _ x => some x) (some 7) psbtW).2 ≠ none := by
  refine ⟨rfl, ?_⟩
  simp [client_sign, client_exchange, transportBroken]

/-- C4 as amended: within one call at most one connection attempt is
made and a transport error is surfaced to the caller unchanged, but the
stored connection handle is never discarded: a call entered with a
handle present returns with that same handle still stored (whatever the
outcome), and a failed connect leaves the cell absent only because it
was never filled. -/
theorem c4_client_sign_keeps_connection (tr : Transport)
    (merge : PSBT → PSBT → Option PSBT) (conn : Nat) (b : PSBT) :
    (client_sign tr merge (some conn) b).2 = some conn ∧
    (∀ e, tr.connect = Except.error e →
      client_sign tr merge none b = (Except.error e, none)) ∧
    (∀ e, tr.send conn b = Except.error e →
      (client_sign tr merge (some conn) b).1 = Except.error e) := by
  refine ⟨?_, ?_, ?_⟩
  · unfold client_sign client_exchange
    cases hs : tr.send conn b with
    | error e => simp [hs]
    | ok u =>
      cases hr : tr.recv conn with
      | error e => simp [hs, hr]
      | ok inp => cases hm : merge b inp <;> simp [hs, hr, hm]
  · intro e he
    unfold client_sign
    rw [he]
  · intro e he
    simp [client_sign, client_exchange, he]

/-- C4 witness: the amended theorem at the broken transport — the
handle survives the failed call and the send error is surfaced. -/
theorem c4_client_sign_keeps_connection_witness :
    (client_sign transportBroken (fun _ x => some x) (some 7) psbtW).2 = some 7 ∧
    client_sign transportBroken (fun _ x => some x) none psbtW =
      (Except.error "connection refused", none) ∧
    (client_sign transportBroken (fun _ x => some x) (some 7) psbtW).1 =
      Except.error "connection reset by peer" := by
  have h := c4_client_sign_keeps_connection transportBroken (fun _ x => some x) 7 psbtW
  exact ⟨h.1, h.2.1 "connection refused" rfl, h.2.2 "connection reset by peer" rfl⟩

/-! ## Federation: `FederatedEmulatorConnection` -/

/-- `emulator::Clause`, as used by this crate: a single-key requirement
or a k-of-N threshold over sub-clauses. -/
inductive Clause where
  | Key (pk : Nat)
  | Threshold (k : Nat) (subs : List Clause)

instance : Inhabited Clause := ⟨Clause.Key 0⟩

/-- A `Box<dyn CTVEmulator>` federation member: its two trait methods,
as opaque fallible functions (`EmulatorError` is opaque). -/
structure Emulator where
  get_signer_for : List Nat → Except Nat Clause
  sign : PSBT → Except Nat PSBT

structure FederatedEmulatorConnection where
  emulators : List Emulator
  threshold : Nat

/-- Rust's `collect::<Result<Vec<_>, _>>()`: stop at the first error,
otherwise gather every success in order. -/
def collectResults {ε α : Type} : List (Except ε α) → Except ε (List α)
  | [] => Except.ok []
  | Except.error e :: _ => Except.error e
  | Except.ok a :: rest => (collectResults rest).map (fun l => a :: l)

/-- The value of a successful `Except`, with a default for errors. -/
def okD {ε α : Type} (x : Except ε α) (d : α) : α :=
  match x with
  | Except.ok a => a
  | Except.error _ => d

/-- `FederatedEmulatorConnection::get_signer_for`: query every member
over the same hash and wrap the collected clauses in
`Clause::Threshold(threshold, _)`. -/
def fed_get_signer_for (f : FederatedEmulatorConnection) (h : List Nat) :
    Except Nat Clause :=
  (collectResults (f.emulators.map (fun em => em.get_signer_for h))).map
    (fun v => Clause.Threshold f.threshold v)

theorem collectResults_ok {ε α : Type} [Inhabited α] (l : List (Except ε α))
    (hl : ∀ x ∈ l, x.isOk = true) :
    collectResults l = Except.ok (l.map (fun x => okD x default)) := by
  induction l with
  | nil => rfl
  | cons x rest ih =>
    cases x with
    | error e =>
      exact absurd (hl (Except.error e) (by simp))
        (by simp [Except.isOk, Except.toBool])
    | ok a =>
      simp only [collectResults, List.map_cons, okD]
      rw [ih (fun y hy => hl y (by simp [hy]))]
      rfl

theorem collectResults_err {ε α : Type} (l : List (Except ε α))
    (hl : ∃ x ∈ l, x.isOk = false) :
    (collectResults l).isOk = false := by
  induction l with
  | nil => simp at hl
  | cons x rest ih =>
    obtain ⟨y, hy, hyerr⟩ := hl
    cases x with
    | error e => simp [collectResults, Except.isOk, Except.toBool]
    | ok a =>
      rcases List.mem_cons.1 hy with h | h
      · rw [h] at hyerr
        simp [Except.isOk, Except.toBool] at hyerr
      · have := ih ⟨y, h, hyerr⟩
        cases hc : collectResults rest with
        | error e => simp [collectResults, hc, Except.map, Except.isOk, Except.toBool]
        | ok v => rw [hc] at this; simp [Except.isOk, Except.toBool] at this

/-- C8: when every member produces a clause, the federation produces a
threshold clause whose threshold value is the federation's `k` and
whose sub-clause list has exactly one entry per member, in member
order, each entry being that member's clause; and if some member
fails, the federation fails. -/
theorem c8_fed_get_signer_for_correct (f : FederatedEmulatorConnection)
    (h : List Nat) :
    ((∀ em ∈ f.emulators, (em.get_signer_for h).isOk = true) →
      fed_get_signer_for f h = Except.ok (Clause.Threshold f.threshold
        (f.emulators.map (fun em => okD (em.get_signer_for h) default))) ∧
      (f.emulators.map (fun em => okD (em.get_signer_for h) default)).length =
        f.emulators.length) ∧
    ((∃ em ∈ f.emulators, (em.get_signer_for h).isOk = false) →
      (fed_get_signer_for f h).isOk = false) := by
  constructor
  · intro hall
    constructor
    · unfold fed_get_signer_for
      rw [collectResults_ok (f.emulators.map (fun em => em.get_signer_for h))
        (by intro x hx
            obtain ⟨em, hem, rfl⟩ := List.mem_map.1 hx
            exact hall em hem)]
      simp [List.map_map]
      rfl
    · simp
  · intro hsome
    obtain ⟨em, hem, herr⟩ := hsome
    unfold fed_get_signer_for
    have hc := collectResults_err (f.emulators.map (fun em => em.get_signer_for h))
      ⟨em.get_signer_for h, List.mem_map.2 ⟨em, hem, rfl⟩, herr⟩
    cases hx : collectResults (f.emulators.map (fun em => em.get_signer_for h)) with
    | error e => simp [Except.map, Except.isOk, Except.toBool]
    | ok v => rw [hx] at hc; simp [Except.isOk, Except.toBool] at hc

/-- Three concrete members for the federation witnesses. -/
def emuA : Emulator where
  get_signer_for := fun _ => Except.ok (Clause.Key 101)
  sign := fun b => Except.ok { b with tx := b.tx + 1 }

def emuB : Emulator where
  get_signer_for := fun _ => Except.ok (Clause.Key 102)
  sign := fun b => Except.ok { b with tx := b.tx + 10 }

def emuC : Emulator where
  get_signer_for := fun _ => Except.ok (Clause.Key 103)
  sign := fun b => Except.ok { b with tx := b.tx + 100 }

/-- A member that always fails. -/
def emuBad : Emulator where
  get_signer_for := fun _ => Except.error 9
  sign := fun _ => Except.error 9

/-- C8 witness: a 2-of-3 federation yields a threshold clause with
threshold value 2 and one sub-clause per member, in member order. -/
theorem c8_fed_get_signer_for_correct_witness :
    fed_get_signer_for ⟨[emuA, emuB, emuC], 2⟩ (List.replicate 32 0) =
      Except.ok (Clause.Threshold 2 [Clause.Key 101, Clause.Key 102, Clause.Key 103]) :=
  ((c8_fed_get_signer_for_correct ⟨[emuA, emuB, emuC], 2⟩ (List.replicate 32 0)).1
    (by intro em hem
        simp only [List.mem_cons, List.not_mem_nil, or_false] at hem
        rcases hem with rfl | rfl | rfl <;> rfl)).1

/-- `FederatedEmulatorConnection::sign`'s member fold:
`for emulator in self.emulators.iter() { b = emulator.sign(b)?; }`. -/
def fed_sign_go : List Emulator → PSBT → Except Nat PSBT
  | [], b => Except.ok b
  | em :: rest, b =>
    match em.sign b with
    | Except.error e => Except.error e
    | Except.ok b2 => fed_sign_go rest b2

/-- `FederatedEmulatorConnection::sign`. -/
def fed_sign (f : FederatedEmulatorConnection) (b : PSBT) : Except Nat PSBT :=
  fed_sign_go f.emulators b

theorem fed_sign_go_append (pre rest : List Emulator) (b b2 : PSBT)
    (h : fed_sign_go pre b = Except.ok b2) :
    fed_sign_go (pre ++ rest) b = fed_sign_go rest b2 := by
  induction pre generalizing b with
  | nil =>
    simp [fed_sign_go] at h
    rw [h]
    rfl
  | cons em tl ih =>
    simp only [fed_sign_go, List.cons_append] at h ⊢
    cases hs : em.sign b with
    | error e => rw [hs] at h; exact absurd h (by simp)
    | ok b3 => rw [hs] at h; exact ih b3 h

theorem foldl_bind_error {e : Nat} (l : List Emulator) :
    l.foldl (fun r em => r.bind (fun x => em.sign x)) (Except.error e : Except Nat PSBT) =
      Except.error e := by
  induction l with
  | nil => rfl
  | cons em tl ih => simpa [Except.bind] using ih

/-- C9: the federation signs by threading the request through every
member's `sign` in member order (the fold is exactly the composition of
the members' sign operations), and the first member failure is returned
as the federation's result no matter what members follow — they are
never invoked and nothing already applied is undone. -/
theorem c9_fed_sign_correct (f : FederatedEmulatorConnection) (b : PSBT) :
    fed_sign f b =
      f.emulators.foldl (fun r em => r.bind (fun x => em.sign x)) (Except.ok b) ∧
    (∀ (pre post : List Emulator) (em : Emulator) (b2 : PSBT) (e : Nat),
      fed_sign_go pre b = Except.ok b2 → em.sign b2 = Except.error e →
      fed_sign ⟨pre ++ em :: post, f.threshold⟩ b = Except.error e) := by
  constructor
  · show fed_sign_go f.emulators b = _
    induction f.emulators generalizing b with
    | nil => rfl
    | cons em tl ih =>
      simp only [fed_sign_go, List.foldl_cons]
      cases hs : em.sign b with
      | error e =>
        rw [show (Except.ok b).bind (fun x => em.sign x) = Except.error e from hs ▸ rfl]
        exact (foldl_bind_error tl).symm
      | ok b2 =>
        rw [show (Except.ok b).bind (fun x => em.sign x) = Except.ok b2 from hs ▸ rfl]
        exact ih b2
  · intro pre post em b2 e hpre hbad
    unfold fed_sign
    rw [fed_sign_go_append pre (em :: post) b b2 hpre]
    simp [fed_sign_go, hbad]

/-- C9 witness: the correctness theorem at a concrete federation — the
two successful members are composed in order, and with a failing second
member the first failure is returned while the third member is never
reached. -/
theorem c9_fed_sign_correct_witness :
    fed_sign ⟨[emuA, emuB], 2⟩ ⟨0, []⟩ =
      ([emuA, emuB].foldl (fun r em => r.bind (fun x => em.sign x))
        (Except.ok (⟨0, []⟩ : PSBT))) ∧
    fed_sign ⟨[emuA, emuBad, emuC], 2⟩ ⟨0, []⟩ = Except.error 9 := by
  constructor
  · exact (c9_fed_sign_correct ⟨[emuA, emuB], 2⟩ ⟨0, []⟩).1
  · exact (c9_fed_sign_correct ⟨[emuA, emuBad, emuC], 2⟩ ⟨0, []⟩).2
      [emuA] [emuC] emuBad ⟨1, []⟩ 9 (by rfl) (by rfl)

end SapioCtv
